import Mathlib

/-!
Verification of the devodsconnector query and sampling client.

The definitions below are a shallow embedding of the packaged module
`src/devodsconnector/reader.py` (class `Reader`) and, where a claim concerns
it, of the legacy top-level `src/api.py` (class `API`).  External
collaborators of the repository — the signed HTTP transport, the parsing
routines of the Python standard library and of pandas, `scipy.stats.norm.sf`,
`numpy.sqrt`, the system clock, and `pandas.DataFrame.sample` — are modelled
as explicit function parameters or environment fields, so the theorems
quantify over every behaviour those collaborators may have.
-/

/-- Python values produced by the column converters built in
`Reader._make_type_map`. -/
inductive PyVal where
  | vNone
  | vStr (s : String)
  | vInt (z : ℤ)
  | vFloat (q : ℚ)
  | vBool (b : Bool)
  | vTime (epoch : ℚ)
  deriving DecidableEq

/-- A column converter: a Python function from a CSV field to a value,
which may raise (modelled as `Except`). -/
def PyConv : Type := String → Except Unit PyVal

/-- Embeds `Reader._null_decorator`: the empty string is mapped to `None`,
anything else is passed to the wrapped converter. -/
def nullDecorator (f : PyConv) : PyConv := fun v =>
  if v = "" then .ok .vNone else f v

/-- Embeds the `str` entry of the `funcs` dict of `_make_type_map`. -/
def strConv : PyConv := fun s => .ok (.vStr s)

/-- Embeds the `bool` entry of the `funcs` dict: the field equals `true`. -/
def boolConv : PyConv := fun b => .ok (.vBool (b == "true"))

/-- The type tags that appear as keys of the `funcs` dict in
`Reader._make_type_map`. -/
def knownTags : List String :=
  ["timestamp", "str", "int8", "int4", "float8", "float4", "bool"]

/-- Embeds `Reader._make_type_map`.  The parsing functions used for the
`timestamp`, integer and float entries come from the Python standard
library, so they are taken as parameters `tsF`, `intF`, `floatF`.  Every
entry of the `funcs` dict is wrapped by `nullDecorator`, and the
`defaultdict` default for an unknown tag is the null-decorated `str`
converter. -/
def makeTypeMap (tsF intF floatF : PyConv) : String → PyConv := fun tag =>
  if tag = "timestamp" then nullDecorator tsF
  else if tag = "str" then nullDecorator strConv
  else if tag = "int8" then nullDecorator intF
  else if tag = "int4" then nullDecorator intF
  else if tag = "float8" then nullDecorator floatF
  else if tag = "float4" then nullDecorator floatF
  else if tag = "bool" then nullDecorator boolConv
  else nullDecorator strConv

/-- Outcome of running the `Reader._stream` generator over an already
decoded CSV result (header line first, then data lines). -/
inductive StreamOut where
  | stopIter
  | schemaMismatch
  | keyLookupFailed
  | ok (header : List String) (rows : List (List PyVal)) (convFailed : Bool)
  deriving DecidableEq

/-- Looks up the converter of each header column, in order, in the probe
type dictionary; embeds the comprehension building `type_list`, whose
first missing key raises a lookup error. -/
def lookupAll (d : List (String × PyConv)) : List String → Option (List PyConv)
  | [] => some []
  | c :: cs =>
    match d.lookup c with
    | none => none
    | some t => (lookupAll d cs).map (fun ts => t :: ts)

/-- Converts the fields of one data row: converters and fields are combined
positionally by `zip`, so the result stops at the shorter of the two
lists, and the first converter exception propagates. -/
def convertRow : List PyConv → List String → Except Unit (List PyVal)
  | _, [] => .ok []
  | [], _ :: _ => .ok []
  | t :: ts, v :: vs =>
    match t v with
    | .error e => .error e
    | .ok x =>
      match convertRow ts vs with
      | .error e => .error e
      | .ok xs => .ok (x :: xs)

/-- Converts data rows in order until the first row whose conversion
raises: the generator yields that prefix and then raises (flag `true`). -/
def convertStream (ts : List PyConv) : List (List String) → List (List PyVal) × Bool
  | [] => ([], false)
  | r :: rs =>
    match convertRow ts r with
    | .error _ => ([], true)
    | .ok out =>
      let p := convertStream ts rs
      (out :: p.1, p.2)

/-- Embeds `Reader._stream` downstream of the probe and of CSV
tokenization: input is the probe type dictionary and the decoded CSV
lines.  An empty stream makes `next(result)` raise; a header whose length
differs from the dictionary raises the duplicate-column-names error; a
header name absent from the dictionary raises a key lookup error before
the header is yielded. -/
def streamDecode (d : List (String × PyConv)) (rows : List (List String)) : StreamOut :=
  match rows with
  | [] => .stopIter
  | cols :: rest =>
    if cols.length ≠ d.length then .schemaMismatch
    else
      match lookupAll d cols with
      | none => .keyLookupFailed
      | some ts =>
        let p := convertStream ts rest
        .ok cols p.1 p.2

/-- The two validation failures of `Reader.query`. -/
inductive QueryErr where
  | invalidOutput
  | continuousDataframe
  deriving DecidableEq

/-- The `valid_outputs` tuple of `Reader.query`. -/
def validOutputs : List String := ["dict", "list", "namedtuple", "dataframe"]

/-- Embeds the control flow of `Reader.query` up to its first network
request: both validations run before the pipeline issues the probe
request and the main request.  The second component counts the requests
issued by the call. -/
def queryCall (output : String) (stop : Option ℤ) : Except QueryErr Unit × ℕ :=
  if ¬ validOutputs.contains output then (.error .invalidOutput, 0)
  else if output = "dataframe" ∧ stop = none then (.error .continuousDataframe, 0)
  else (.ok (), 2)

/-- Shape of the value returned by the legacy `API._query`. -/
inductive RespShape where
  | lines
  | text
  deriving DecidableEq

/-- Embeds the flag override in `API._query`: when `stop` is `None` the
stream flag is set to true before the request is made. -/
def apiEffectiveStream (stop : Option ℤ) (stream : Bool) : Bool :=
  if stop.isNone then true else stream

/-- Embeds the tail of `API._query`: a streaming request returns the lazy
line iterator of the response, otherwise the buffered text body. -/
def apiQueryShape (stop : Option ℤ) (stream : Bool) : RespShape :=
  if apiEffectiveStream stop stream then .lines else .text

/-- Embeds `Reader._query` writing `self.client.config.stream = stream`:
the flag of the caller is forwarded unchanged. -/
def readerConfigStream (stream : Bool) : Bool := stream

/-- The `stream` argument that `Reader._stream` passes to `Reader._query`
for the main CSV request (`stream = True` at the call site). -/
def readerStreamCallFlag : Bool := true

/-- Wall-clock fields of a `datetime.datetime` or `pandas.Timestamp`
value; `tz` is the attached `tzinfo`, as a UTC offset in seconds
(`none` means a naive value). -/
structure PyDt where
  year : ℤ
  month : ℤ
  day : ℤ
  hour : ℤ
  minute : ℤ
  second : ℤ
  micro : ℤ
  tz : Option ℤ
  deriving DecidableEq

/-- Days from the Unix epoch of a proleptic Gregorian civil date; models
the ordinal arithmetic inside the `datetime` library. -/
def daysFromCivil (y m d : ℤ) : ℤ :=
  let y2 := if m ≤ 2 then y - 1 else y
  let era := (if 0 ≤ y2 then y2 else y2 - 399) / 400
  let yoe := y2 - era * 400
  let doy := (153 * (if 2 < m then m - 3 else m + 9) + 2) / 5 + d - 1
  let doe := yoe * 365 + yoe / 4 - yoe / 100 + doy
  era * 146097 + doe - 719468

/-- Seconds from the epoch (exact rational, microseconds included) of the
wall-clock fields of `d` read as UTC; the `tz` field plays no part. -/
def wallSecondsQ (d : PyDt) : ℚ :=
  86400 * (daysFromCivil d.year d.month d.day : ℚ)
    + 3600 * (d.hour : ℚ) + 60 * (d.minute : ℚ) + (d.second : ℚ)
    + (d.micro : ℚ) / 1000000

/-- Embeds `date.replace(tzinfo=timezone.utc)`: the wall-clock fields are
kept and the offset becomes zero. -/
def pyReplaceUtc (d : PyDt) : PyDt := { d with tz := some 0 }

/-- Embeds `datetime.timestamp()` for an aware value: wall-clock seconds
minus the UTC offset.  In `_to_unix` the receiver is always aware because
`replace` runs first, so the naive branch is never reached there. -/
def pyTimestamp (d : PyDt) : ℚ := wallSecondsQ d - ((d.tz.getD 0 : ℤ) : ℚ)

/-- Embeds Python `int()` applied to a possibly fractional epoch:
truncation toward zero.  `Int.tdiv` is T-division, which truncates the
quotient toward zero (the `/` of `ℤ` would floor it for the positive
denominator, disagreeing with `int()` on negative fractional epochs
such as `int(-0.5) = 0`). -/
def pyIntTrunc (q : ℚ) : ℤ := q.num.tdiv (q.den : ℤ)

/-- The argument forms accepted by `Reader._to_unix`. -/
inductive DateInput where
  | noneD
  | nowD
  | strD (s : String)
  | dtD (d : PyDt)
  | numD (q : ℚ)

/-- Embeds `Reader._to_unix`.  The system clock and the pandas string
parser are external, passed as `nowE` (the current epoch) and `parse`
(returning epoch seconds, or failing on unparsable input). -/
def toUnix (nowE : ℚ) (parse : String → Option ℚ) (ms : Bool) :
    DateInput → Except Unit (Option ℤ)
  | .noneD => .ok none
  | .nowD => .ok (some (pyIntTrunc (if ms then 1000 * nowE else nowE)))
  | .strD s =>
    match parse s with
    | none => .error ()
    | some e => .ok (some (pyIntTrunc (if ms then 1000 * e else e)))
  | .dtD d =>
    let e := pyTimestamp (pyReplaceUtc d)
    .ok (some (pyIntTrunc (if ms then 1000 * e else e)))
  | .numD q => .ok (some (pyIntTrunc (if ms then 1000 * q else q)))

/-- Embeds the update `p = min(1.001 * p, 1)` of `_find_optimal_p`. -/
def stepP (p : ℚ) : ℚ := min (1001 / 1000 * p) 1

/-- The sequence of candidate probabilities visited by `_find_optimal_p`,
starting at `k / n`. -/
def chainP (n k : ℚ) : ℕ → ℚ
  | 0 => k / n
  | i + 1 => stepP (chainP n k i)

/-- Embeds `Reader._loc_scale`; `numpy.sqrt` is external, parameter `sq`. -/
def locScale (sq : ℚ → ℚ) (n p : ℚ) : ℚ × ℚ := (n * p, sq (n * p * (1 - p)))

/-- Embeds the loop guard `norm.sf(x=k - 0.5, loc, scale) > threshold` of
`_find_optimal_p`; the survival function of `scipy.stats.norm` is
external, parameter `sf` taking `x`, `loc` and `scale`. -/
def sfCond (sf : ℚ → ℚ → ℚ → ℚ) (sq : ℚ → ℚ) (n k thr p : ℚ) : Bool :=
  let ls := locScale sq n p
  decide (thr < sf (k - 1 / 2) ls.1 ls.2)

/-- Fuel-indexed embedding of the `while True` search: return the current
candidate as soon as the guard holds, otherwise step and continue. -/
def findLoop (cond : ℚ → Bool) (step : ℚ → ℚ) : ℕ → ℚ → Option ℚ
  | 0, _ => none
  | fuel + 1, p => if cond p then some p else findLoop cond step fuel (step p)

/-- Embeds `Reader._find_optimal_p`; the fuel models the unbounded loop,
`none` meaning the loop has not returned within the fuel. -/
def findOptimalP (sf : ℚ → ℚ → ℚ → ℚ) (sq : ℚ → ℚ) (n k thr : ℚ) (fuel : ℕ) : Option ℚ :=
  findLoop (sfCond sf sq n k thr) stepP fuel (k / n)

/-- The `sample_size` argument as the Python value handed to
`Reader.randomSample`: an int, or a non-int number. -/
inductive SizeArg where
  | intArg (z : ℤ)
  | floatArg (q : ℚ)
  deriving DecidableEq

/-- Numeric value of a `SizeArg`. -/
def sizeVal : SizeArg → ℚ
  | .intArg z => (z : ℚ)
  | .floatArg q => q

/-- Whether `isinstance(sample_size, int)` holds for the argument. -/
def sizeIsInt : SizeArg → Bool
  | .intArg _ => true
  | .floatArg _ => false

/-- External behaviour consumed by `Reader.randomSample`: the population
count answered by the count query; for each retry attempt, the original
row identifiers admitted by the remote random filter, in table order; and
the positional indices chosen by `pandas.DataFrame.sample`. -/
structure SampleEnv where
  tableSize : ℕ
  draw : ℕ → List ℕ
  pick : List ℕ → ℕ → List ℕ

/-- Result of a `Reader.randomSample` call. -/
inductive RSOutcome where
  | err
  | fullTable (warned : Bool) (rows : List ℕ)
  | sample (rows : List ℕ)
  | diverge
  deriving DecidableEq

/-- Embeds `df.sample(sample_size).sort_index().reset_index(drop=True)` on
the rows `df` of one attempt: the chosen positional indices are sorted
back into frame order and the corresponding rows are returned re-indexed
from zero. -/
def downselect (env : SampleEnv) (df : List ℕ) (k : ℕ) : List ℕ :=
  ((env.pick df k).insertionSort (· ≤ ·)).map (fun j => df.getD j 0)

/-- The retry loop of `Reader.randomSample`, fuel-indexed; the second
component counts the attempts (sample queries) made. -/
def sampleLoop (env : SampleEnv) (k : ℕ) : ℕ → ℕ → RSOutcome × ℕ
  | 0, _ => (.diverge, 0)
  | fuel + 1, i =>
    let df := env.draw i
    if k ≤ df.length then (.sample (downselect env df k), 1)
    else
      let r := sampleLoop env k fuel (i + 1)
      (r.1, r.2 + 1)

/-- Embeds `Reader.randomSample`.  The second component counts the
`self.query` invocations the call makes.  The full, unsampled table is
the identifier list `List.range tableSize`. -/
def randomSample (sf : ℚ → ℚ → ℚ → ℚ) (sq : ℚ → ℚ) (env : SampleEnv)
    (s : SizeArg) (pFuel loopFuel : ℕ) : RSOutcome × ℕ :=
  match s with
  | .floatArg _ => (.err, 0)
  | .intArg z =>
    if z < 1 then (.err, 0)
    else if (env.tableSize : ℤ) ≤ z then
      (.fullTable true (List.range env.tableSize), 2)
    else
      match findOptimalP sf sq (env.tableSize : ℚ) (z : ℚ) (99 / 100) pFuel with
      | none => (.diverge, 1)
      | some _ =>
        let r := sampleLoop env z.toNat loopFuel 0
        (r.1, r.2 + 1)

/-- A constant survival function used by witnesses to exercise the
sampler model. -/
def sfOne : ℚ → ℚ → ℚ → ℚ := fun _ _ _ => 1

/-- Identity standing in for the external square root in witnesses. -/
def sqId : ℚ → ℚ := fun x => x

/-- A concrete sampler environment used by witnesses. -/
def envW : SampleEnv where
  tableSize := 10
  draw := fun _ => [3, 5, 7, 9]
  pick := fun _ m => List.range m

/-- A concrete two-column probe dictionary used by decoder witnesses. -/
def wSchema : List (String × PyConv) :=
  [("a", nullDecorator strConv), ("b", nullDecorator strConv)]

/-- Decoded CSV lines whose header has the same column count as `wSchema`
but a name that `wSchema` does not contain. -/
def ceRows : List (List String) := [["a", "c"], ["x", "y"]]

/-- Any value returned by `findLoop` is an iterate of the step function,
the guard holds at it, and the guard fails at every earlier iterate. -/
lemma findLoop_spec (cond : ℚ → Bool) (step : ℚ → ℚ) :
    ∀ fuel p0 p, findLoop cond step fuel p0 = some p →
      ∃ i, p = step^[i] p0 ∧ cond p = true ∧
        ∀ j < i, cond (step^[j] p0) = false := by
  intro fuel
  induction fuel with
  | zero => intro p0 p h; simp [findLoop] at h
  | succ f ih =>
    intro p0 p h
    by_cases hc : cond p0 = true
    · refine ⟨0, ?_, ?_, by omega⟩
      · simpa [findLoop, hc] using h.symm
      · have : p = p0 := by simpa [findLoop, hc] using h.symm
        rw [this]; exact hc
    · have hc' : cond p0 = false := by simpa using hc
      have h' : findLoop cond step f (step p0) = some p := by
        simpa [findLoop, hc'] using h
      obtain ⟨i, hp, hcp, hall⟩ := ih (step p0) p h'
      refine ⟨i + 1, ?_, hcp, ?_⟩
      · rw [hp, Function.iterate_succ_apply]
      · intro j hj
        cases j with
        | zero => simpa using hc'
        | succ j' =>
          rw [Function.iterate_succ_apply]
          exact hall j' (by omega)

/-- The candidate chain is the iterate sequence of `stepP` from `k / n`. -/
lemma chainP_iterate (n k : ℚ) : ∀ i, chainP n k i = stepP^[i] (k / n) := by
  intro i
  induction i with
  | zero => rfl
  | succ j ih => rw [chainP, ih, Function.iterate_succ_apply']

/-- With `0 < k < n` every candidate is strictly positive and at most 1. -/
lemma chainP_bounds (n k : ℚ) (hk : 0 < k) (hkn : k < n) :
    ∀ i, 0 < chainP n k i ∧ chainP n k i ≤ 1 := by
  have hn : 0 < n := lt_trans hk hkn
  intro i
  induction i with
  | zero =>
    constructor
    · exact div_pos hk hn
    · rw [chainP, div_le_one hn]; exact le_of_lt hkn
  | succ j ih =>
    constructor
    · rw [chainP, stepP]
      exact lt_min (by nlinarith [ih.1]) one_pos
    · rw [chainP, stepP]; exact min_le_right _ _

/-- With `0 < k < n` the candidate chain is monotone nondecreasing. -/
lemma chainP_mono (n k : ℚ) (hk : 0 < k) (hkn : k < n) :
    Monotone (fun i => chainP n k i) := by
  apply monotone_nat_of_le_succ
  intro i
  have hb := chainP_bounds n k hk hkn i
  show chainP n k i ≤ chainP n k (i + 1)
  rw [chainP, stepP]
  refine le_min (by nlinarith [hb.1]) hb.2

/-- Claim C1: for `0 < k < n` the probability search of `_find_optimal_p`
starts at `k / n`, never exceeds 1 along its chain, and on return yields a
`p ≤ 1` at which the normal-approximation upper-tail guard
`sf (k - 0.5) (n * p) (sqrt (n * p * (1 - p))) > 0.99` holds, while the
guard fails at every chain value smaller than `p`; this holds for every
behaviour of the external `norm.sf` and `sqrt` routines. -/
theorem findOptimalP_spec (sf : ℚ → ℚ → ℚ → ℚ) (sq : ℚ → ℚ) (n k : ℚ)
    (fuel : ℕ) (p : ℚ) (hk : 0 < k) (hkn : k < n)
    (h : findOptimalP sf sq n k (99 / 100) fuel = some p) :
    chainP n k 0 = k / n ∧
    (∀ i, chainP n k i ≤ 1) ∧
    p ≤ 1 ∧
    sfCond sf sq n k (99 / 100) p = true ∧
    ∃ i, p = chainP n k i ∧
      ∀ j, chainP n k j < p → sfCond sf sq n k (99 / 100) (chainP n k j) = false := by
  obtain ⟨i, hp, hcp, hall⟩ := findLoop_spec _ _ fuel (k / n) p h
  have hpi : p = chainP n k i := by rw [chainP_iterate]; exact hp
  refine ⟨rfl, fun j => (chainP_bounds n k hk hkn j).2, ?_, hcp, i, hpi, ?_⟩
  · rw [hpi]; exact (chainP_bounds n k hk hkn i).2
  · intro j hj
    have hji : j < i := by
      by_contra hge
      have hle : chainP n k i ≤ chainP n k j := chainP_mono n k hk hkn (by omega)
      rw [← hpi] at hle
      exact absurd hj (not_lt.mpr hle)
    rw [chainP_iterate]
    exact hall j hji

/-- Witness for C1 at `n = 10000`, `k = 100`, with a constant survival
function that satisfies the guard immediately, so the loop returns the
starting candidate `1/100`. -/
theorem findOptimalP_spec_witness :
    chainP 10000 100 0 = 100 / 10000 ∧
    (∀ i, chainP 10000 100 i ≤ 1) ∧
    (1 / 100 : ℚ) ≤ 1 ∧
    sfCond sfOne sqId 10000 100 (99 / 100) (1 / 100) = true ∧
    ∃ i, (1 / 100 : ℚ) = chainP 10000 100 i ∧
      ∀ j, chainP 10000 100 j < 1 / 100 →
        sfCond sfOne sqId 10000 100 (99 / 100) (chainP 10000 100 j) = false :=
  findOptimalP_spec sfOne sqId 10000 100 1 (1 / 100)
    (by norm_num) (by norm_num)
    (by
      have hc : ∀ p : ℚ, sfCond sfOne sqId 10000 100 (99 / 100) p = true := by
        intro p
        simp only [sfCond, sfOne, locScale, decide_eq_true_eq]
        norm_num
      simp only [findOptimalP, findLoop, hc, if_true]
      norm_num)

/-- Claim C2: a valid positive integer target at least as large as the
population returned by the count query makes `randomSample` emit the
warning and return the full, unsampled table, raising no error. -/
theorem randomSample_full (sf : ℚ → ℚ → ℚ → ℚ) (sq : ℚ → ℚ) (env : SampleEnv)
    (z : ℤ) (pf lf : ℕ) (h1 : 1 ≤ z) (h2 : (env.tableSize : ℤ) ≤ z) :
    randomSample sf sq env (.intArg z) pf lf =
      (.fullTable true (List.range env.tableSize), 2) := by
  have hz : ¬ z < 1 := by omega
  simp [randomSample, hz, h2]

/-- Witness for C2: target 12 against population 10. -/
theorem randomSample_full_witness :
    randomSample sfOne sqId envW (.intArg 12) 1 1 =
      (.fullTable true (List.range envW.tableSize), 2) :=
  randomSample_full sfOne sqId envW 12 1 1 (by decide) (by decide)

/-- Claim C7: a non-positive or non-integer `sample_size` fails the
validation of `randomSample` and no query request is issued (the request
count is zero). -/
theorem randomSample_validation (sf : ℚ → ℚ → ℚ → ℚ) (sq : ℚ → ℚ)
    (env : SampleEnv) (s : SizeArg) (pf lf : ℕ)
    (h : sizeVal s ≤ 0 ∨ sizeIsInt s = false) :
    randomSample sf sq env s pf lf = (.err, 0) := by
  cases s with
  | floatArg q => rfl
  | intArg z =>
    rcases h with h | h
    · have hz : z < 1 := by
        have : (z : ℚ) ≤ 0 := h
        have : z ≤ 0 := by exact_mod_cast this
        omega
      simp [randomSample, hz]
    · simp [sizeIsInt] at h

/-- Witness for C7: the fractional sample size `5/2`. -/
theorem randomSample_validation_witness :
    randomSample sfOne sqId envW (.floatArg (5 / 2)) 1 1 = (.err, 0) :=
  randomSample_validation sfOne sqId envW (.floatArg (5 / 2)) 1 1
    (Or.inr (by decide))

/-- Claim C6: an output shape outside `validOutputs`, or the dataframe
shape combined with `stop = None`, is rejected by `Reader.query` with a
validation error while the request count is still zero. -/
theorem queryCall_validation (output : String) (stop : Option ℤ)
    (h : validOutputs.contains output = false ∨
      (output = "dataframe" ∧ stop = none)) :
    ∃ e, queryCall output stop = (.error e, 0) := by
  rcases h with h | ⟨h1, h2⟩
  · refine ⟨.invalidOutput, ?_⟩
    have hcond : ¬ validOutputs.contains output = true := by rw [h]; simp
    unfold queryCall
    rw [if_pos hcond]
  · subst h1; subst h2
    refine ⟨.continuousDataframe, ?_⟩
    unfold queryCall
    rw [if_neg (by simp [validOutputs]), if_pos ⟨rfl, rfl⟩]

/-- Witness for C6: the unknown output shape `xml` with a bounded range. -/
theorem queryCall_validation_witness :
    ∃ e, queryCall "xml" (some 5) = (.error e, 0) :=
  queryCall_validation "xml" (some 5) (Or.inl (by decide))

/-- Claim C8: with `stop = None` the legacy executor `API._query` forces
the stream flag on, whatever flag the caller passed, and returns the lazy
line-iterator shape; the packaged `Reader._query` forwards the flag of
its caller, and the `Reader._stream` pipeline — the only path that runs
continuous queries — always passes `stream = True`. -/
theorem continuous_forces_streaming (stream : Bool) :
    apiEffectiveStream none stream = true ∧
    apiQueryShape none stream = .lines ∧
    readerConfigStream readerStreamCallFlag = true := by
  refine ⟨rfl, ?_, rfl⟩
  simp [apiQueryShape, apiEffectiveStream]

/-- Claim C10: `_to_unix` on a datetime or Timestamp value ignores the
attached timezone entirely — the result is the truncation toward zero of
the wall-clock fields read as UTC — and `None` input returns `None`. -/
theorem toUnix_spec (nowE : ℚ) (parse : String → Option ℚ) (d : PyDt)
    (t1 t2 : Option ℤ) :
    toUnix nowE parse false (.dtD d) = .ok (some (pyIntTrunc (wallSecondsQ d))) ∧
    toUnix nowE parse false (.dtD { d with tz := t1 }) =
      toUnix nowE parse false (.dtD { d with tz := t2 }) ∧
    toUnix nowE parse false .noneD = .ok none := by
  refine ⟨?_, ?_, rfl⟩
  · simp [toUnix, pyTimestamp, pyReplaceUtc, wallSecondsQ]
  · simp [toUnix, pyTimestamp, pyReplaceUtc, wallSecondsQ]

/-- Claim C4: whatever the external parsers do, every converter of the
type map sends the empty string to the null value, and an unknown tag is
mapped — without error — to the null-decorated identity string converter. -/
theorem makeTypeMap_spec (tsF intF floatF : PyConv) :
    (∀ tag, makeTypeMap tsF intF floatF tag "" = .ok .vNone) ∧
    (∀ tag, tag ∉ knownTags → ∀ s,
      makeTypeMap tsF intF floatF tag s =
        .ok (if s = "" then .vNone else .vStr s)) := by
  constructor
  · intro tag
    unfold makeTypeMap
    split_ifs <;> simp [nullDecorator]
  · intro tag htag s
    simp only [knownTags, List.mem_cons, List.not_mem_nil, or_false, not_or] at htag
    obtain ⟨h1, h2, h3, h4, h5, h6, h7⟩ := htag
    simp only [makeTypeMap, if_neg h1, if_neg h2, if_neg h3, if_neg h4,
      if_neg h5, if_neg h6, if_neg h7, nullDecorator, strConv]
    split_ifs <;> rfl

/-- Witness for C4: a tag the map does not know, on the empty string and
on a non-empty string. -/
theorem makeTypeMap_spec_witness :
    (∀ tag, makeTypeMap strConv strConv strConv tag "" = .ok .vNone) ∧
    makeTypeMap strConv strConv strConv "mystery" "abc" =
      .ok (if "abc" = "" then PyVal.vNone else .vStr "abc") :=
  ⟨(makeTypeMap_spec strConv strConv strConv).1,
    (makeTypeMap_spec strConv strConv strConv).2 "mystery" (by decide) "abc"⟩

/-- If every header column has an entry in the type dictionary, building
the converter list succeeds. -/
lemma lookupAll_isSome (d : List (String × PyConv)) :
    ∀ cols, (∀ c ∈ cols, (d.lookup c).isSome) →
      ∃ ts, lookupAll d cols = some ts := by
  intro cols
  induction cols with
  | nil => intro _; exact ⟨[], rfl⟩
  | cons c cs ih =>
    intro h
    have hc := h c (by simp)
    obtain ⟨t, ht⟩ := Option.isSome_iff_exists.mp hc
    obtain ⟨ts, hts⟩ := ih (fun x hx => h x (by simp [hx]))
    exact ⟨t :: ts, by simp [lookupAll, ht, hts]⟩

/-- The converter list has one converter per header column. -/
lemma lookupAll_length (d : List (String × PyConv)) :
    ∀ cols ts, lookupAll d cols = some ts → ts.length = cols.length := by
  intro cols
  induction cols with
  | nil =>
    intro ts h
    simp only [lookupAll, Option.some_inj] at h
    simp [← h]
  | cons c cs ih =>
    intro ts h
    simp only [lookupAll] at h
    cases hl : d.lookup c with
    | none => rw [hl] at h; exact absurd h (by simp)
    | some t =>
      rw [hl] at h
      cases hr : lookupAll d cs with
      | none => rw [hr] at h; exact absurd h (by simp)
      | some ts2 =>
        rw [hr] at h
        have heq : t :: ts2 = ts := by simpa using h
        rw [← heq]
        simp [ih ts2 hr]

/-- A converted row is as long as the shorter of the converter list and
the field list. -/
lemma convertRow_length :
    ∀ (ts : List PyConv) (r : List String) (out : List PyVal),
      convertRow ts r = .ok out → out.length = min ts.length r.length := by
  intro ts
  induction ts with
  | nil =>
    intro r out h
    cases r with
    | nil => simp only [convertRow, Except.ok.injEq] at h; simp [← h]
    | cons v vs => simp only [convertRow, Except.ok.injEq] at h; simp [← h]
  | cons t ts ih =>
    intro r out h
    cases r with
    | nil => simp only [convertRow, Except.ok.injEq] at h; simp [← h]
    | cons v vs =>
      simp only [convertRow] at h
      cases htv : t v with
      | error e => rw [htv] at h; exact absurd h (by simp)
      | ok x =>
        rw [htv] at h
        cases hrec : convertRow ts vs with
        | error e => rw [hrec] at h; exact absurd h (by simp)
        | ok xs =>
          rw [hrec] at h
          have heq : x :: xs = out := by simpa using h
          rw [← heq]
          have := ih vs xs hrec
          simp only [List.length_cons, this]
          omega

/-- Every row the stream yields comes from the conversion of an input
data line. -/
lemma convertStream_mem (ts : List PyConv) :
    ∀ rs (o : List PyVal), o ∈ (convertStream ts rs).1 →
      ∃ r ∈ rs, convertRow ts r = .ok o := by
  intro rs
  induction rs with
  | nil => intro o ho; simp [convertStream] at ho
  | cons r rs ih =>
    intro o ho
    simp only [convertStream] at ho
    cases hc : convertRow ts r with
    | error e => rw [hc] at ho; simp at ho
    | ok out =>
      rw [hc] at ho
      simp only [List.mem_cons] at ho
      rcases ho with ho | ho
      · exact ⟨r, by simp, by rw [hc, ho]⟩
      · obtain ⟨r2, hr2, hcr⟩ := ih o ho
        exact ⟨r2, by simp [hr2], hcr⟩

/-- Claim C5 (amended): the decoder raises the schema-mismatch error iff
the header column count differs from the probe dictionary size; when the
counts agree and every header name has a dictionary entry, it yields the
header followed by the converted rows.  (When the counts agree but a
header name is missing, a key lookup error — not the schema-mismatch
error — is raised before the header is yielded; see the counterexample.) -/
theorem streamDecode_spec (d : List (String × PyConv)) (cols : List String)
    (rest : List (List String)) :
    (streamDecode d (cols :: rest) = .schemaMismatch ↔ cols.length ≠ d.length) ∧
    (cols.length = d.length → (∀ c ∈ cols, (d.lookup c).isSome) →
      ∃ ts, lookupAll d cols = some ts ∧
        streamDecode d (cols :: rest) =
          .ok cols (convertStream ts rest).1 (convertStream ts rest).2) := by
  constructor
  · constructor
    · intro h
      by_contra hne
      have heq : cols.length = d.length := hne
      simp only [streamDecode] at h
      rw [if_neg (fun hc => hc heq)] at h
      cases hlk : lookupAll d cols with
      | none => rw [hlk] at h; exact absurd h (by simp)
      | some ts => rw [hlk] at h; exact absurd h (by simp)
    · intro h
      simp only [streamDecode]
      rw [if_pos h]
  · intro hlen hcov
    obtain ⟨ts, hts⟩ := lookupAll_isSome d cols hcov
    refine ⟨ts, hts, ?_⟩
    simp only [streamDecode]
    rw [if_neg (fun hc => hc hlen), hts]

/-- Witness for C5 (amended): a two-column dictionary against a matching
two-column header with two data lines. -/
theorem streamDecode_spec_witness :
    ∃ ts, lookupAll wSchema ["a", "b"] = some ts ∧
      streamDecode wSchema (["a", "b"] :: [["x", ""], ["y"]]) =
        .ok ["a", "b"] (convertStream ts [["x", ""], ["y"]]).1
          (convertStream ts [["x", ""], ["y"]]).2 :=
  (streamDecode_spec wSchema ["a", "b"] [["x", ""], ["y"]]).2 (by decide) (by decide)

/-- Counterexample to C5 as stated: a header whose column count equals the
dictionary size but whose second name is absent from the dictionary makes
the decoder raise the key lookup error, yielding neither the header nor
any converted row. -/
theorem streamDecode_equal_counts_not_ok :
    (["a", "c"] : List String).length = wSchema.length ∧
    streamDecode wSchema ceRows = .keyLookupFailed ∧
    ∀ hdr out b, streamDecode wSchema ceRows ≠ .ok hdr out b := by
  refine ⟨rfl, by decide, ?_⟩
  intro hdr out b h
  rw [show streamDecode wSchema ceRows = .keyLookupFailed by decide] at h
  exact StreamOut.noConfusion h

/-- Claim C9: a data line whose field count differs from the header width
is not an error — every yielded converted row has length equal to the
minimum of the header length and the field count of the line it came
from. -/
theorem streamDecode_row_lengths (d : List (String × PyConv))
    (cols : List String) (rest : List (List String)) (hdr : List String)
    (out : List (List PyVal)) (b : Bool)
    (h : streamDecode d (cols :: rest) = .ok hdr out b) :
    ∀ o ∈ out, ∃ r ∈ rest, o.length = min cols.length r.length := by
  simp only [streamDecode] at h
  by_cases hlen : cols.length ≠ d.length
  · rw [if_pos hlen] at h; exact absurd h (by simp)
  · rw [if_neg hlen] at h
    cases hlk : lookupAll d cols with
    | none => rw [hlk] at h; exact absurd h (by simp)
    | some ts =>
      rw [hlk] at h
      have hout : out = (convertStream ts rest).1 := by
        have := (StreamOut.ok.injEq _ _ _ _ _ _).mp h
        exact this.2.1.symm
      intro o ho
      rw [hout] at ho
      obtain ⟨r, hr, hcr⟩ := convertStream_mem ts rest o ho
      refine ⟨r, hr, ?_⟩
      have hts := lookupAll_length d cols ts hlk
      rw [convertRow_length ts r o hcr, hts]

/-- Witness for C9: a short line and a long line against a two-column
header; the rows keep `min` lengths 1 and 2. -/
theorem streamDecode_row_lengths_witness :
    ∃ r ∈ ([["x"], ["x", "y", "z"]] : List (List String)),
      ([PyVal.vStr "x"] : List PyVal).length =
        min (["a", "b"] : List String).length r.length :=
  streamDecode_row_lengths wSchema ["a", "b"] [["x"], ["x", "y", "z"]]
    ["a", "b"] [[.vStr "x"], [.vStr "x", .vStr "y"]] false (by decide)
    [PyVal.vStr "x"] (by decide)

/-- Mapping a strictly increasing list of in-range positions through
`getD` produces a sublist: an order-preserving selection of rows. -/
lemma selection_sublist (l idx : List ℕ) (hp : idx.Pairwise (· < ·))
    (hb : ∀ j ∈ idx, j < l.length) :
    (idx.map (fun j => l.getD j 0)).Sublist l := by
  have hfin : (idx.pmap (fun j h => (⟨j, h⟩ : Fin l.length)) hb).Pairwise (· < ·) := by
    rw [List.pairwise_pmap hb]
    exact hp.imp (fun hab _ _ => Fin.mk_lt_mk.mpr hab)
  have hsub := List.map_getElem_sublist hfin
  have h1 : idx.pmap (fun j h => l[(⟨j, h⟩ : Fin l.length)]) hb
      = idx.pmap (fun j _ => l.getD j 0) hb :=
    List.pmap_congr_left idx (fun a ha h1 h2 => by
      simp [List.getD_eq_getElem?_getD, List.getElem?_eq_getElem h1])
  rw [List.map_pmap, h1, List.pmap_eq_map] at hsub
  exact hsub

/-- A sorted list without duplicates is strictly increasing. -/
lemma sorted_nodup_pairwise_lt (xs : List ℕ) (hs : xs.Sorted (· ≤ ·))
    (hn : xs.Nodup) : xs.Pairwise (· < ·) :=
  (hs.and hn).imp (fun h => lt_of_le_of_ne h.1 h.2)

/-- A sample produced by the retry loop comes from an attempt whose draw
was large enough, down-selected by `downselect`. -/
lemma sampleLoop_sample (env : SampleEnv) (k : ℕ) :
    ∀ fuel i rows, (sampleLoop env k fuel i).1 = .sample rows →
      ∃ a, k ≤ (env.draw a).length ∧ rows = downselect env (env.draw a) k := by
  intro fuel
  induction fuel with
  | zero => intro i rows h; simp [sampleLoop] at h
  | succ f ih =>
    intro i rows h
    by_cases hk : k ≤ (env.draw i).length
    · refine ⟨i, hk, ?_⟩
      simp only [sampleLoop] at h
      rw [if_pos hk] at h
      have h2 : RSOutcome.sample (downselect env (env.draw i) k) = .sample rows := h
      injection h2 with h3
      exact h3.symm
    · simp only [sampleLoop] at h
      rw [if_neg hk] at h
      exact ih (i + 1) rows (by simpa using h)

/-- Claim C3: if `randomSample` returns a sample, that sample has exactly
`sample_size` rows, its rows come from the over-shot filtered draw of one
attempt, and they keep the original row order (the result is a sublist of
the draw), for every selection behaviour of `pandas.DataFrame.sample`
that picks the requested number of distinct valid positions. -/
theorem randomSample_exact (sf : ℚ → ℚ → ℚ → ℚ) (sq : ℚ → ℚ)
    (env : SampleEnv) (z : ℤ) (pf lf : ℕ) (rows : List ℕ) (c : ℕ)
    (hpick : ∀ df m, m ≤ df.length →
      (env.pick df m).length = m ∧ (env.pick df m).Nodup ∧
        ∀ j ∈ env.pick df m, j < df.length)
    (h : randomSample sf sq env (.intArg z) pf lf = (.sample rows, c)) :
    rows.length = z.toNat ∧
      ∃ a, z.toNat ≤ (env.draw a).length ∧ rows.Sublist (env.draw a) := by
  have h1 : (sampleLoop env z.toNat lf 0).1 = .sample rows := by
    simp only [randomSample] at h
    by_cases hz : z < 1
    · rw [if_pos hz] at h; exact absurd h (by simp)
    · rw [if_neg hz] at h
      by_cases ht : (env.tableSize : ℤ) ≤ z
      · rw [if_pos ht] at h; exact absurd h (by simp)
      · rw [if_neg ht] at h
        cases hfp : findOptimalP sf sq (env.tableSize : ℚ) (z : ℚ) (99 / 100) pf with
        | none => rw [hfp] at h; exact absurd h (by simp)
        | some p =>
          rw [hfp] at h
          have h2 := congrArg Prod.fst h
          simpa using h2
  obtain ⟨a, hk, hrows⟩ := sampleLoop_sample env z.toNat lf 0 rows h1
  obtain ⟨hlen, hnod, hbnd⟩ := hpick (env.draw a) z.toNat hk
  have hperm := List.perm_insertionSort (· ≤ ·) (env.pick (env.draw a) z.toNat)
  constructor
  · rw [hrows]
    simp only [downselect, List.length_map]
    rw [hperm.length_eq, hlen]
  · refine ⟨a, hk, ?_⟩
    rw [hrows]
    apply selection_sublist
    · apply sorted_nodup_pairwise_lt
      · exact List.sorted_insertionSort (· ≤ ·) _
      · exact hperm.nodup_iff.mpr hnod
    · intro j hj
      exact hbnd j ((List.mem_insertionSort _).mp hj)

/-- The search loop returns its start as soon as the guard holds there. -/
lemma findLoop_succ_pos (cond : ℚ → Bool) (step : ℚ → ℚ) (fuel : ℕ) (p : ℚ)
    (h : cond p = true) : findLoop cond step (fuel + 1) p = some p := by
  simp [findLoop, h]

/-- Witness for C3: population 10, target 2, a first draw of four rows
`[3, 5, 7, 9]`, and a picker taking the first `m` positions; the sample
is `[3, 5]`, of length 2 and a sublist of the draw. -/
theorem randomSample_exact_witness :
    ([3, 5] : List ℕ).length = (2 : ℤ).toNat ∧
      ∃ a, (2 : ℤ).toNat ≤ (envW.draw a).length ∧
        ([3, 5] : List ℕ).Sublist (envW.draw a) :=
  randomSample_exact sfOne sqId envW 2 1 1 [3, 5] 2
    (by
      intro df m hm
      refine ⟨by simp [envW], ?_, ?_⟩
      · simp only [envW]
        exact List.nodup_range m
      · intro j hj
        simp only [envW, List.mem_range] at hj
        omega)
    (by
      have hc : sfCond sfOne sqId ((envW.tableSize : ℕ) : ℚ) (((2 : ℤ) : ℚ))
          (99 / 100) (((2 : ℤ) : ℚ) / ((envW.tableSize : ℕ) : ℚ)) = true := by
        simp only [sfCond, sfOne, locScale, decide_eq_true_eq]
        norm_num
      simp only [randomSample]
      rw [if_neg (by omega), if_neg (by decide), findOptimalP,
        show (1 : ℕ) = 0 + 1 from rfl, findLoop_succ_pos _ _ _ _ hc]
      decide)

/-- `pyIntTrunc` truncates toward zero like Python `int()`: both halves,
`-1/2` and `1/2` (given in reduced form), map to `0`. -/
lemma pyIntTrunc_toward_zero :
    pyIntTrunc (Rat.mk' (-1) 2 (by omega) (by exact Nat.coprime_one_left 2)) = 0 ∧
    pyIntTrunc (Rat.mk' 1 2 (by omega) (by exact Nat.coprime_one_left 2)) = 0 :=
  ⟨rfl, rfl⟩
